import Mathlib

/-
Verification of the real-time broadcast hub of venslupro/todo-api
(internal/app/service: WebSocketService and its helpers).

The Go code is embedded shallowly:
* `WebSocketMessage`, `WebSocketClient` and the buffered `Send` channel
  become Lean structures (the creation timestamp and the transport handle
  are never inspected by routing and are omitted);
* the dynamic `map[string]interface{}` payload becomes an association
  list of string keys to `JVal` values, where `JVal.other` stands for any
  non-string value (the routing code only ever compares payload values
  against strings);
* the Router loop `Run` becomes a step function over an explicit hub
  state; Go channel sends are given their runtime semantics explicitly
  (send on a closed channel panics, a full buffer makes a `select` with
  a `default` branch fall through and makes a bare send block).
-/

namespace TodoApi

/-- A Go `interface\x7b\x7d` value stored in a payload map, as far as routing
can observe it: either a string or anything else. -/
inductive JVal where
  | str (s : String)
  | other
deriving DecidableEq

/-- A Go `map[string]interface\x7b\x7d` payload, as an association list with
unique keys; lookup returns the first binding. -/
def Payload := List (String × JVal)

instance : DecidableEq Payload := by
  unfold Payload
  infer_instance

/-- Lookup of a key in a payload map. -/
def Payload.lookup (p : Payload) (k : String) : Option JVal :=
  match p with
  | [] => none
  | (k', v) :: rest => if k' = k then some v else Payload.lookup rest k

/-- `WebSocketMessage`: Type, Payload and UserID. `payload = none` models a
payload that is not a map at all, so the type assertion
`message.Payload.(map[string]interface\x7b\x7d)` in `shouldSendToClient` fails.
The Timestamp field is never read by any routing decision and is omitted. -/
structure WebSocketMessage where
  type : String
  payload : Option Payload
  userID : String
deriving DecidableEq

/-- The buffered `Send` channel of a client: its queued messages in FIFO
order and whether `close` has been called on it. -/
structure Chan where
  buf : List WebSocketMessage
  closed : Bool
deriving DecidableEq

/-- Capacity of the `Send` channel, from
`make(chan WebSocketMessage, 256)` in `HandleWebSocketConnection`. -/
def sendCapacity : Nat := 256

/-- Outcome of one attempted channel send. -/
inductive SendResult where
  | ok (c : Chan)
  | wouldBlock
  | panicked

/-- Go semantics of a channel send attempt: a send on a closed channel
panics; with a full buffer the send cannot proceed now (a `select` with a
`default` branch falls through, a bare send blocks); otherwise the message
is appended to the buffer. -/
def trySend (c : Chan) (m : WebSocketMessage) : SendResult :=
  if c.closed then .panicked
  else if c.buf.length < sendCapacity then .ok { c with buf := c.buf ++ [m] }
  else .wouldBlock

/-- `WebSocketClient`: owning user identity, subscribed team ids (a slice,
i.e. a list) and the outbound `Send` channel. -/
structure WSClient where
  userID : String
  teamIDs : List String
  Send : Chan
deriving DecidableEq

/-- A fresh client as built by `HandleWebSocketConnection`: the given
identity and initial team list, and an empty open `Send` channel. -/
def newClient (userID : String) (teamIDs : List String) : WSClient :=
  { userID := userID, teamIDs := teamIDs, Send := { buf := [], closed := false } }

/-- `shouldSendToClient`: deliver to everyone when the message has no
UserID; else deliver on a UserID match; else, when the payload is a map
holding a "team_id" key, deliver when some subscribed team id equals that
value (a Go `==` between a string and an `interface\x7b\x7d` value, true exactly
when the value is that string). -/
def shouldSendToClient (client : WSClient) (message : WebSocketMessage) : Bool :=
  if message.userID = "" then true
  else if message.userID = client.userID then true
  else
    match message.payload with
    | some teamMessage =>
      match Payload.lookup teamMessage "team_id" with
      | some teamID => client.teamIDs.any (fun clientTeamID => JVal.str clientTeamID == teamID)
      | none => false
    | none => false

/-- The message `BroadcastTeamUpdate` submits for a team: type
"team_update", payload holding "action" (a string), "team" (a struct, not
a string) and "team_id" (the team's id), and no UserID. -/
def teamUpdateMessage (teamID action : String) : WebSocketMessage :=
  { type := "team_update",
    payload := some [("action", .str action), ("team", .other), ("team_id", .str teamID)],
    userID := "" }

/-- The message `BroadcastUserNotification` submits: type "notification",
payload holding "type" and "content" (both strings, no "team_id" key), and
the target user's id as UserID. -/
def userNotificationMessage (userID messageType content : String) : WebSocketMessage :=
  { type := "notification",
    payload := some [("type", .str messageType), ("content", .str content)],
    userID := userID }

/-- Router state: `conns` is the universe of client values ever created,
keyed by an abstract identity standing for Go pointer identity; `live` is
the key set of the `s.clients` map. -/
structure Hub where
  conns : Nat → Option WSClient
  live : List Nat

/-- Replace the client value stored at key `i`. -/
def Hub.set (st : Hub) (i : Nat) (c : WSClient) : Hub :=
  { st with conns := fun j => if j = i then some c else st.conns j }

/-- Outcome of one Router or reader step: a new state, or the acting
goroutine blocks, or it panics. -/
inductive StepOut where
  | ok (st : Hub)
  | blocked
  | panicked

/-- The register branch of `Run`: `s.clients[client] = true`. The client
value is the fresh one built by `HandleWebSocketConnection`; all claims
are proved under the at-most-once registration discipline, enforced by a
freshness hypothesis wherever a register step occurs. -/
def registerStep (st : Hub) (i : Nat) (userID : String) (teamIDs : List String) : Hub :=
  { conns := fun j => if j = i then some (newClient userID teamIDs) else st.conns j,
    live := if i ∈ st.live then st.live else i :: st.live }

/-- The unregister branch of `Run`: when the client is in the map, delete
it and `close(client.Send)` — closing an already-closed channel panics;
when it is absent, do nothing. -/
def unregisterStep (st : Hub) (i : Nat) : StepOut :=
  if i ∈ st.live then
    match st.conns i with
    | some c =>
      if c.Send.closed then .panicked
      else .ok { conns := fun j => if j = i then
                   some { c with Send := { c.Send with closed := true } } else st.conns j,
                 live := st.live.filter (fun j => j != i) }
    | none => .ok { st with live := st.live.filter (fun j => j != i) }
  else .ok st

/-- One iteration of the broadcast fan-out loop of `Run` for the client at
key `i`: when `shouldSendToClient` holds, a `select` send with a `default`
branch; on a full buffer the default branch runs `close(client.Send)` and
deletes the client from the map. `none` is a runtime panic (send on a
closed channel). -/
def deliverOne (m : WebSocketMessage) (st : Hub) (i : Nat) : Option Hub :=
  match st.conns i with
  | none => some st
  | some c =>
    if shouldSendToClient c m then
      match trySend c.Send m with
      | .ok ch => some (st.set i { c with Send := ch })
      | .wouldBlock =>
        some { conns := fun j => if j = i then
                 some { c with Send := { c.Send with closed := true } } else st.conns j,
               live := st.live.filter (fun j => j != i) }
      | .panicked => none
    else some st

/-- The broadcast loop of `Run`, iterating the snapshot of the map's keys
(the Go loop visits each key once, and the only key it ever deletes is the
one currently being visited). -/
def dispatchList (m : WebSocketMessage) (st : Hub) : List Nat → Option Hub
  | [] => some st
  | i :: rest =>
    match deliverOne m st i with
    | some st₁ => dispatchList m st₁ rest
    | none => none

/-- The broadcast branch of `Run`. -/
def broadcastStep (m : WebSocketMessage) (st : Hub) : Option Hub :=
  dispatchList m st st.live

/-- The pong reply constructed in the "ping" branch of
`handleIncomingMessage` (no payload map, no UserID). -/
def pongMessage : WebSocketMessage :=
  { type := "pong", payload := none, userID := "" }

/-- Removal of the first matching entry, as the "unsubscribe" branch does
with `append(client.TeamIDs[:i], client.TeamIDs[i+1:]...)` followed by
`break`. -/
def removeFirst : List String → String → List String
  | [], _ => []
  | id :: rest, target => if id = target then rest else id :: removeFirst rest target

/-- Outcome of the reader goroutine handling one inbound message. -/
inductive ReaderOut where
  | ok (c : WSClient)
  | blocked
  | panicked

/-- `handleIncomingMessage`, run by the connection's reader: "ping" does an
unconditional bare send of the pong onto the client's own `Send` channel
(blocking when the buffer is full, panicking when the channel is closed);
"subscribe" appends the payload's "team_id" to `TeamIDs` when it is a
string; "unsubscribe" removes the first matching entry; any other type is
logged and ignored. -/
def handleIncomingMessage (client : WSClient) (message : WebSocketMessage) : ReaderOut :=
  if message.type = "ping" then
    if client.Send.closed then .panicked
    else if client.Send.buf.length < sendCapacity then
      .ok { client with Send := { client.Send with buf := client.Send.buf ++ [pongMessage] } }
    else .blocked
  else if message.type = "subscribe" then
    .ok (match message.payload with
      | some payload =>
        match Payload.lookup payload "team_id" with
        | some (.str teamIDStr) => { client with teamIDs := client.teamIDs ++ [teamIDStr] }
        | _ => client
      | none => client)
  else if message.type = "unsubscribe" then
    .ok (match message.payload with
      | some payload =>
        match Payload.lookup payload "team_id" with
        | some (.str teamIDStr) => { client with teamIDs := removeFirst client.teamIDs teamIDStr }
        | _ => client
      | none => client)
  else .ok client

/-- The inbound control message a client sends to subscribe to a group. -/
def subscribeMessage (g : String) : WebSocketMessage :=
  { type := "subscribe", payload := some [("team_id", .str g)], userID := "" }

/-- The inbound control message a client sends to unsubscribe from a
group. -/
def unsubscribeMessage (g : String) : WebSocketMessage :=
  { type := "unsubscribe", payload := some [("team_id", .str g)], userID := "" }

/-- The interleaved events of the system: the three Router channel sources
and the handling of one inbound client message by that client's reader. -/
inductive HubEvent where
  | register (i : Nat) (userID : String) (teamIDs : List String)
  | unregister (i : Nat)
  | broadcast (m : WebSocketMessage)
  | clientMsg (i : Nat) (m : WebSocketMessage)

/-- One step of the interleaved system. -/
def step (st : Hub) : HubEvent → StepOut
  | .register i u ts => .ok (registerStep st i u ts)
  | .unregister i => unregisterStep st i
  | .broadcast m =>
    match broadcastStep m st with
    | some st' => .ok st'
    | none => .panicked
  | .clientMsg i m =>
    match st.conns i with
    | none => .ok st
    | some c =>
      match handleIncomingMessage c m with
      | .ok c' => .ok (st.set i c')
      | .blocked => .blocked
      | .panicked => .panicked

/-- Run a list of events, stopping (with `none`) if any step blocks or
panics. -/
def run (st : Hub) : List HubEvent → Option Hub
  | [] => some st
  | e :: es =>
    match step st e with
    | .ok st' => run st' es
    | _ => none

/-- The hub at process start: no client ever created, empty map. -/
def hub0 : Hub := { conns := fun _ => none, live := [] }

/-- A client at key `i` exists and its `Send` channel is open. -/
def openAt (st : Hub) (i : Nat) : Bool :=
  match st.conns i with
  | some c => !c.Send.closed
  | none => false

/-- Well-formedness of the hub state, maintained by the Router loop: the
map's key list holds no duplicates and every registered client has an open
`Send` channel. -/
def Good (st : Hub) : Prop :=
  st.live.Nodup ∧ ∀ i ∈ st.live, openAt st i = true

instance (st : Hub) : Decidable (Good st) := by
  unfold Good
  infer_instance

/-- Enqueue a message on a client's `Send` buffer. -/
def pushClient (c : WSClient) (m : WebSocketMessage) : WSClient :=
  { c with Send := { c.Send with buf := c.Send.buf ++ [m] } }

/-- Close a client's `Send` channel. -/
def closeClient (c : WSClient) : WSClient :=
  { c with Send := { c.Send with closed := true } }

/-- The value of one client after the fan-out loop of a single broadcast
visited it: enqueued when it qualifies and has room, closed when it
qualifies with a full buffer, untouched otherwise. -/
def afterDispatch (m : WebSocketMessage) (c : WSClient) : WSClient :=
  if shouldSendToClient c m then
    if c.Send.buf.length < sendCapacity then pushClient c m else closeClient c
  else c

/-- Whether a client survives the fan-out loop of a single broadcast. -/
def staysLive (m : WebSocketMessage) (c : WSClient) : Bool :=
  !shouldSendToClient c m || decide (c.Send.buf.length < sendCapacity)

/-- Whether the client at key `j` survives the fan-out loop of a single
broadcast from state `st` (a key with no client is never touched). -/
def liveAfterB (m : WebSocketMessage) (st : Hub) (j : Nat) : Bool :=
  match st.conns j with
  | some c => staysLive m c
  | none => true

/-- `Hub.set` only rewrites the chosen key. -/
theorem Hub.set_conns (st : Hub) (i : Nat) (c : WSClient) (j : Nat) :
    (st.set i c).conns j = if j = i then some c else st.conns j := rfl

/-- `Hub.set` leaves the live key list unchanged. -/
theorem Hub.set_live (st : Hub) (i : Nat) (c : WSClient) :
    (st.set i c).live = st.live := rfl

/-- Routing only reads a client's identity and team list, never its
channel. -/
theorem shouldSend_send_irrel (c : WSClient) (s : Chan) (m : WebSocketMessage) :
    shouldSendToClient { c with Send := s } m = shouldSendToClient c m := rfl

/-- Characterization of the broadcast fan-out loop over any key list
without duplicates whose clients all have open channels: it never panics,
each visited client ends as `afterDispatch` prescribes, unvisited keys are
untouched, and a key stays in the map exactly when its client survives. -/
theorem dispatchList_char (m : WebSocketMessage) :
    ∀ (l : List Nat) (acc : Hub), l.Nodup →
      (∀ i ∈ l, openAt acc i = true) →
      ∃ st', dispatchList m acc l = some st' ∧
        (∀ i ∈ l, ∀ c, acc.conns i = some c → st'.conns i = some (afterDispatch m c)) ∧
        (∀ i, i ∉ l → st'.conns i = acc.conns i) ∧
        (∀ j, j ∈ st'.live ↔ j ∈ acc.live ∧ (j ∈ l → liveAfterB m acc j = true)) ∧
        st'.live.Sublist acc.live := by
  intro l
  induction l with
  | nil =>
    intro acc _ _
    refine ⟨acc, rfl, ?_, ?_, ?_, List.Sublist.refl _⟩
    · intro i hi; cases hi
    · intro i _; rfl
    · intro j; simp
  | cons i t ih =>
    intro acc hnd hopen
    have hit : i ∉ t := (List.nodup_cons.mp hnd).1
    have hndt : t.Nodup := (List.nodup_cons.mp hnd).2
    have hoi : openAt acc i = true := hopen i (List.mem_cons_self i t)
    cases hc : acc.conns i with
    | none => simp [openAt, hc] at hoi
    | some c =>
      have hcl : c.Send.closed = false := by
        simpa [openAt, hc] using hoi
      cases hq : shouldSendToClient c m with
      | false =>
        have hdel : deliverOne m acc i = some acc := by
          simp [deliverOne, hc, hq]
        obtain ⟨st', hrun, h1, h2, h3, h4⟩ :=
          ih acc hndt (fun j hj => hopen j (List.mem_cons_of_mem _ hj))
        refine ⟨st', ?_, ?_, ?_, ?_, h4⟩
        · simpa [dispatchList, hdel] using hrun
        · intro j hj c₀ hc₀
          rcases List.mem_cons.mp hj with hj | hj
          · subst hj
            have hcc : c₀ = c := by rw [hc] at hc₀; exact (Option.some.inj hc₀).symm
            subst hcc
            rw [h2 j hit, hc]
            simp [afterDispatch, hq]
          · exact h1 j hj c₀ hc₀
        · intro j hj
          exact h2 j (fun h => hj (List.mem_cons_of_mem _ h))
        · intro j
          rw [h3 j]
          by_cases hji : j = i
          · subst hji
            have hlb : liveAfterB m acc j = true := by
              simp [liveAfterB, hc, staysLive, hq]
            simp [hlb]
          · simp [List.mem_cons, hji]
      | true =>
        by_cases hroom : c.Send.buf.length < sendCapacity
        · -- room in the buffer: the message is enqueued
          have hdel : deliverOne m acc i = some (acc.set i (pushClient c m)) := by
            simp [deliverOne, hc, hq, trySend, hcl, hroom, pushClient]
          have hopen' : ∀ j ∈ t, openAt (acc.set i (pushClient c m)) j = true := by
            intro j hj
            have hji : j ≠ i := fun h => hit (h ▸ hj)
            have := hopen j (List.mem_cons_of_mem _ hj)
            simpa [openAt, Hub.set_conns, hji] using this
          obtain ⟨st', hrun, h1, h2, h3, h4⟩ := ih (acc.set i (pushClient c m)) hndt hopen'
          refine ⟨st', ?_, ?_, ?_, ?_, ?_⟩
          · simpa [dispatchList, hdel] using hrun
          · intro j hj c₀ hc₀
            rcases List.mem_cons.mp hj with hj | hj
            · subst hj
              have hcc : c₀ = c := by rw [hc] at hc₀; exact (Option.some.inj hc₀).symm
              subst hcc
              rw [h2 j hit, Hub.set_conns, if_pos rfl]
              simp [afterDispatch, hq, hroom]
            · have hji : j ≠ i := fun h => hit (h ▸ hj)
              have hc₀' : (acc.set i (pushClient c m)).conns j = some c₀ := by
                rw [Hub.set_conns, if_neg hji]; exact hc₀
              exact h1 j hj c₀ hc₀'
          · intro j hj
            have hji : j ≠ i := fun h => hj (h ▸ List.mem_cons_self i t)
            rw [h2 j (fun h => hj (List.mem_cons_of_mem _ h)), Hub.set_conns, if_neg hji]
          · intro j
            rw [h3 j, Hub.set_live]
            by_cases hji : j = i
            · subst hji
              have hlb : liveAfterB m acc j = true := by
                simp [liveAfterB, hc, staysLive, hq, hroom]
              simp [hit, hlb]
            · have hlb : liveAfterB m (acc.set i (pushClient c m)) j = liveAfterB m acc j := by
                simp [liveAfterB, Hub.set_conns, hji]
              simp [hlb, List.mem_cons, hji]
          · rw [Hub.set_live] at h4; exact h4
        · -- full buffer: the client is closed and removed
          have hdel : deliverOne m acc i =
              some { conns := fun j => if j = i then
                       some { c with Send := { c.Send with closed := true } } else acc.conns j,
                     live := acc.live.filter (fun j => j != i) } := by
            simp [deliverOne, hc, hq, trySend, hcl, hroom]
          set acc₁ : Hub :=
            { conns := fun j => if j = i then
                some { c with Send := { c.Send with closed := true } } else acc.conns j,
              live := acc.live.filter (fun j => j != i) } with hacc₁
          have hconns₁ : ∀ j, acc₁.conns j =
              if j = i then some (closeClient c) else acc.conns j := fun j => rfl
          have hopen' : ∀ j ∈ t, openAt acc₁ j = true := by
            intro j hj
            have hji : j ≠ i := fun h => hit (h ▸ hj)
            have := hopen j (List.mem_cons_of_mem _ hj)
            simpa [openAt, hconns₁, hji] using this
          obtain ⟨st', hrun, h1, h2, h3, h4⟩ := ih acc₁ hndt hopen'
          refine ⟨st', ?_, ?_, ?_, ?_, ?_⟩
          · simpa [dispatchList, hdel, hacc₁] using hrun
          · intro j hj c₀ hc₀
            rcases List.mem_cons.mp hj with hj | hj
            · subst hj
              have hcc : c₀ = c := by rw [hc] at hc₀; exact (Option.some.inj hc₀).symm
              subst hcc
              rw [h2 j hit, hconns₁, if_pos rfl]
              simp [afterDispatch, hq, hroom]
            · have hji : j ≠ i := fun h => hit (h ▸ hj)
              have hc₀' : acc₁.conns j = some c₀ := by
                rw [hconns₁, if_neg hji]; exact hc₀
              exact h1 j hj c₀ hc₀'
          · intro j hj
            have hji : j ≠ i := fun h => hj (h ▸ List.mem_cons_self i t)
            rw [h2 j (fun h => hj (List.mem_cons_of_mem _ h)), hconns₁, if_neg hji]
          · intro j
            rw [h3 j]
            by_cases hji : j = i
            · subst hji
              have hlive₁ : j ∉ acc₁.live := by
                simp [hacc₁, List.mem_filter]
              have hlb : liveAfterB m acc j = false := by
                simp [liveAfterB, hc, staysLive, hq, hroom]
              simp [hlive₁, hlb]
            · have hlb : liveAfterB m acc₁ j = liveAfterB m acc j := by
                simp [liveAfterB, hconns₁, hji]
              have hlive₁ : j ∈ acc₁.live ↔ j ∈ acc.live := by
                simp [hacc₁, List.mem_filter, hji]
              simp [hlb, hlive₁, List.mem_cons, hji]
          · refine h4.trans ?_
            exact List.filter_sublist _

/-- Characterization of one whole broadcast dispatch from a well-formed
state. -/
theorem broadcastStep_char (m : WebSocketMessage) (st : Hub) (h : Good st) :
    ∃ st', broadcastStep m st = some st' ∧
      (∀ i ∈ st.live, ∀ c, st.conns i = some c → st'.conns i = some (afterDispatch m c)) ∧
      (∀ i, i ∉ st.live → st'.conns i = st.conns i) ∧
      (∀ j, j ∈ st'.live ↔ j ∈ st.live ∧ liveAfterB m st j = true) ∧
      st'.live.Sublist st.live := by
  obtain ⟨st', h0, h1, h2, h3, h4⟩ := dispatchList_char m st.live st h.1 h.2
  refine ⟨st', h0, h1, h2, ?_, h4⟩
  intro j
  rw [h3 j]
  constructor
  · rintro ⟨hl, himp⟩; exact ⟨hl, himp hl⟩
  · rintro ⟨hl, hlb⟩; exact ⟨hl, fun _ => hlb⟩

/-- A broadcast dispatch preserves well-formedness: survivors keep open
channels and no duplicate keys appear. -/
theorem good_broadcast {m : WebSocketMessage} {st st' : Hub}
    (h : Good st) (hb : broadcastStep m st = some st') : Good st' := by
  obtain ⟨st'', h0, h1, _, h3, h4⟩ := broadcastStep_char m st h
  rw [hb] at h0
  obtain rfl : st' = st'' := Option.some.inj h0
  constructor
  · exact h4.nodup h.1
  · intro j hj
    obtain ⟨hl, hlb⟩ := (h3 j).mp hj
    have hoj := h.2 j hl
    cases hcj : st.conns j with
    | none => simp [openAt, hcj] at hoj
    | some c =>
      have hcl : c.Send.closed = false := by simpa [openAt, hcj] using hoj
      have hconn : st'.conns j = some (afterDispatch m c) := h1 j hl c hcj
      have hsl : staysLive m c = true := by simpa [liveAfterB, hcj] using hlb
      cases hq : shouldSendToClient c m with
      | false => simp [openAt, hconn, afterDispatch, hq, hcl]
      | true =>
        have hroom : c.Send.buf.length < sendCapacity := by
          simpa [staysLive, hq] using hsl
        simp [openAt, hconn, afterDispatch, hq, hroom, pushClient, hcl]

/-- Registering a fresh client preserves well-formedness. -/
theorem good_register {st : Hub} {i : Nat} {u : String} {ts : List String}
    (h : Good st) (hfresh : st.conns i = none) : Good (registerStep st i u ts) := by
  have hnl : i ∉ st.live := by
    intro hmem
    have := h.2 i hmem
    simp [openAt, hfresh] at this
  constructor
  · simp only [registerStep, if_neg hnl]
    exact List.nodup_cons.mpr ⟨hnl, h.1⟩
  · intro j hj
    simp only [registerStep, if_neg hnl, List.mem_cons] at hj
    rcases hj with hj | hj
    · subst hj; simp [openAt, registerStep, newClient]
    · have hji : j ≠ i := fun hh => hnl (hh ▸ hj)
      have := h.2 j hj
      simpa [openAt, registerStep, hji] using this

/-- An unregister step from a well-formed state never panics, and its
result is well-formed. -/
theorem good_unregister {st st' : Hub} {i : Nat}
    (h : Good st) (hu : unregisterStep st i = .ok st') : Good st' := by
  by_cases hl : i ∈ st.live
  · cases hc : st.conns i with
    | none =>
      simp only [unregisterStep, if_pos hl, hc] at hu
      obtain rfl : _ = st' := StepOut.ok.inj hu
      constructor
      · exact (List.filter_sublist _).nodup h.1
      · intro j hj
        have hj' : j ∈ st.live := List.mem_of_mem_filter hj
        exact h.2 j hj'
    | some c =>
      have hcl : c.Send.closed = false := by
        have := h.2 i hl
        simpa [openAt, hc] using this
      simp only [unregisterStep, if_pos hl, hc, hcl, Bool.false_eq_true, if_false] at hu
      obtain rfl : _ = st' := StepOut.ok.inj hu
      constructor
      · exact (List.filter_sublist _).nodup h.1
      · intro j hj
        have hjf : j ∈ List.filter (fun j => j != i) st.live := hj
        have hj' : j ∈ st.live := (List.mem_filter.mp hjf).1
        have hji : (j != i) = true := (List.mem_filter.mp hjf).2
        have hji' : j ≠ i := by simpa using hji
        have := h.2 j hj'
        simpa [openAt, hji'] using this
  · simp only [unregisterStep, if_neg hl] at hu
    obtain rfl : st = st' := StepOut.ok.inj hu
    exact h

/-- `handleIncomingMessage` never changes whether the channel is closed
(the ping branch appends to the buffer, the subscription branches touch
only the team list). -/
theorem handleIncoming_ok_closed {c c' : WSClient} {m : WebSocketMessage}
    (h : handleIncomingMessage c m = .ok c') : c'.Send.closed = c.Send.closed := by
  unfold handleIncomingMessage at h
  by_cases hping : m.type = "ping"
  · rw [if_pos hping] at h
    cases hcl : c.Send.closed with
    | true => rw [hcl] at h; simp at h
    | false =>
      rw [hcl] at h
      simp only [Bool.false_eq_true, if_false] at h
      by_cases hroom : c.Send.buf.length < sendCapacity
      · rw [if_pos hroom] at h
        obtain rfl : _ = c' := ReaderOut.ok.inj h
        simp [hcl]
      · rw [if_neg hroom] at h; cases h
  · rw [if_neg hping] at h
    by_cases hsub : m.type = "subscribe"
    · rw [if_pos hsub] at h
      obtain rfl : _ = c' := ReaderOut.ok.inj h
      cases hp : m.payload with
      | none => simp [hp]
      | some p =>
        cases hv : Payload.lookup p "team_id" with
        | none => simp [hp, hv]
        | some v => cases v <;> simp [hp, hv]
    · rw [if_neg hsub] at h
      by_cases huns : m.type = "unsubscribe"
      · rw [if_pos huns] at h
        obtain rfl : _ = c' := ReaderOut.ok.inj h
        cases hp : m.payload with
        | none => simp [hp]
        | some p =>
          cases hv : Payload.lookup p "team_id" with
          | none => simp [hp, hv]
          | some v => cases v <;> simp [hp, hv]
      · rw [if_neg huns] at h
        obtain rfl : c = c' := ReaderOut.ok.inj h
        rfl

/-- A reader step that completes preserves well-formedness. -/
theorem good_clientMsg {st st' : Hub} {i : Nat} {m : WebSocketMessage}
    (h : Good st) (hs : step st (.clientMsg i m) = .ok st') : Good st' := by
  cases hc : st.conns i with
  | none =>
    simp only [step, hc] at hs
    obtain rfl : st = st' := StepOut.ok.inj hs
    exact h
  | some c =>
    simp only [step, hc] at hs
    cases hh : handleIncomingMessage c m with
    | blocked => rw [hh] at hs; cases hs
    | panicked => rw [hh] at hs; cases hs
    | ok c' =>
      rw [hh] at hs
      obtain rfl : st.set i c' = st' := StepOut.ok.inj hs
      constructor
      · rw [Hub.set_live]; exact h.1
      · intro j hj
        rw [Hub.set_live] at hj
        by_cases hji : j = i
        · subst hji
          have := h.2 j hj
          have hjc : c'.Send.closed = c.Send.closed := handleIncoming_ok_closed hh
          simp only [openAt, hc] at this
          simp [openAt, Hub.set_conns, hjc, this]
        · have := h.2 j hj
          simpa [openAt, Hub.set_conns, hji] using this

/-- Enqueueing never changes how a client is routed. -/
theorem shouldSend_push (c : WSClient) (m m' : WebSocketMessage) :
    shouldSendToClient (pushClient c m) m' = shouldSendToClient c m' := rfl

/-- The "team_id" entry of a message's payload, when the payload is a map
holding one. -/
def payloadTeamId (m : WebSocketMessage) : Option JVal :=
  match m.payload with
  | some p => Payload.lookup p "team_id"
  | none => none

/-- For a user-targeted event whose payload carries no "team_id" entry,
the delivery predicate reduces to equality of user identities. -/
theorem shouldSend_user_only (c : WSClient) (m : WebSocketMessage)
    (hU : m.userID ≠ "") (hT : payloadTeamId m = none) :
    (shouldSendToClient c m = true) ↔ m.userID = c.userID := by
  unfold shouldSendToClient
  rw [if_neg hU]
  by_cases he : m.userID = c.userID
  · simp [he]
  · rw [if_neg he]
    cases hp : m.payload with
    | none => simp [he]
    | some p =>
      have hT' : Payload.lookup p "team_id" = none := by
        simpa [payloadTeamId, hp] using hT
      simp [hT', he]

/-- A single fan-out iteration for key `j` leaves every other key's client
untouched and never adds a key to the map. -/
theorem deliverOne_untouched {m : WebSocketMessage} {acc acc₁ : Hub} {j i : Nat}
    (hne : i ≠ j) (hd : deliverOne m acc j = some acc₁) :
    acc₁.conns i = acc.conns i ∧ (i ∈ acc₁.live → i ∈ acc.live) := by
  unfold deliverOne at hd
  cases hc : acc.conns j with
  | none =>
    rw [hc] at hd
    obtain rfl : acc = acc₁ := Option.some.inj hd
    exact ⟨rfl, id⟩
  | some c =>
    rw [hc] at hd
    simp only at hd
    by_cases hq : shouldSendToClient c m = true
    · rw [if_pos hq] at hd
      cases ht : trySend c.Send m with
      | ok ch =>
        rw [ht] at hd
        obtain rfl := Option.some.inj hd
        exact ⟨by simp [Hub.set_conns, hne], fun h => by rwa [Hub.set_live] at h⟩
      | wouldBlock =>
        rw [ht] at hd
        obtain rfl := Option.some.inj hd
        constructor
        · simp [hne]
        · intro hmem
          have hmem' : i ∈ List.filter (fun j' => j' != j) acc.live := hmem
          exact (List.mem_filter.mp hmem').1
      | panicked => rw [ht] at hd; cases hd
    · rw [if_neg hq] at hd
      obtain rfl : acc = acc₁ := Option.some.inj hd
      exact ⟨rfl, id⟩

/-- The whole fan-out loop leaves a key outside the visited list
untouched. -/
theorem dispatchList_untouched (m : WebSocketMessage) :
    ∀ (l : List Nat) (acc st' : Hub) (i : Nat), i ∉ l →
      dispatchList m acc l = some st' →
      st'.conns i = acc.conns i ∧ (i ∈ st'.live → i ∈ acc.live) := by
  intro l
  induction l with
  | nil =>
    intro acc st' i _ hr
    obtain rfl : acc = st' := Option.some.inj hr
    exact ⟨rfl, id⟩
  | cons j t ih =>
    intro acc st' i hi hr
    have hij : i ≠ j := fun h => hi (h ▸ List.mem_cons_self j t)
    have hit : i ∉ t := fun h => hi (List.mem_cons_of_mem _ h)
    simp only [dispatchList] at hr
    cases hd : deliverOne m acc j with
    | none => rw [hd] at hr; cases hr
    | some acc₁ =>
      rw [hd] at hr
      have h1 := deliverOne_untouched hij hd
      have h2 := ih acc₁ st' i hit hr
      exact ⟨h2.1.trans h1.1, fun h => h1.2 (h2.2 h)⟩

/-- No event in a trace registers key `i` or is an inbound message handled
by `i`'s own reader. -/
def avoids (i : Nat) : HubEvent → Bool
  | .register j _ _ => j != i
  | .clientMsg j _ => j != i
  | _ => true

/-- One completed step that neither registers `i` nor runs `i`'s reader
leaves an unregistered `i` unregistered and its client value untouched. -/
theorem step_avoid {st st' : Hub} {i : Nat} {e : HubEvent}
    (hnl : i ∉ st.live) (hav : avoids i e = true) (hs : step st e = .ok st') :
    st'.conns i = st.conns i ∧ i ∉ st'.live := by
  cases e with
  | register j u ts =>
    have hji : j ≠ i := by simpa [avoids] using hav
    have hij : i ≠ j := fun h => hji h.symm
    simp only [step] at hs
    obtain rfl := StepOut.ok.inj hs
    constructor
    · simp [registerStep, hij]
    · intro hmem
      simp only [registerStep] at hmem
      by_cases hjl : j ∈ st.live
      · rw [if_pos hjl] at hmem; exact hnl hmem
      · rw [if_neg hjl] at hmem
        rcases List.mem_cons.mp hmem with h | h
        · exact hji h.symm
        · exact hnl h
  | unregister j =>
    by_cases hij : i = j
    · subst hij
      simp only [step, unregisterStep, if_neg hnl] at hs
      obtain rfl : st = st' := StepOut.ok.inj hs
      exact ⟨rfl, hnl⟩
    · simp only [step] at hs
      by_cases hjl : j ∈ st.live
      · cases hc : st.conns j with
        | none =>
          simp only [unregisterStep, if_pos hjl, hc] at hs
          obtain rfl := StepOut.ok.inj hs
          refine ⟨rfl, ?_⟩
          intro hmem
          have hmem' : i ∈ List.filter (fun j' => j' != j) st.live := hmem
          exact hnl (List.mem_filter.mp hmem').1
        | some c =>
          cases hcl : c.Send.closed with
          | true =>
            simp only [unregisterStep, if_pos hjl, hc, hcl, if_true] at hs
            exact StepOut.noConfusion hs
          | false =>
            simp only [unregisterStep, if_pos hjl, hc, hcl, Bool.false_eq_true, if_false] at hs
            obtain rfl := StepOut.ok.inj hs
            constructor
            · simp [hij]
            · intro hmem
              have hmem' : i ∈ List.filter (fun j' => j' != j) st.live := hmem
              exact hnl (List.mem_filter.mp hmem').1
      · simp only [unregisterStep, if_neg hjl] at hs
        obtain rfl : st = st' := StepOut.ok.inj hs
        exact ⟨rfl, hnl⟩
  | broadcast m =>
    simp only [step] at hs
    cases hb : broadcastStep m st with
    | none => rw [hb] at hs; cases hs
    | some st₁ =>
      rw [hb] at hs
      have heq : st₁ = st' := StepOut.ok.inj hs
      have hb' : dispatchList m st st.live = some st₁ := hb
      have hu := dispatchList_untouched m st.live st st₁ i hnl hb'
      rw [heq] at hu
      exact ⟨hu.1, fun h => hnl (hu.2 h)⟩
  | clientMsg j mm =>
    have hji : j ≠ i := by simpa [avoids] using hav
    simp only [step] at hs
    cases hc : st.conns j with
    | none =>
      simp only [hc] at hs
      obtain rfl : st = st' := StepOut.ok.inj hs
      exact ⟨rfl, hnl⟩
    | some c =>
      simp only [hc] at hs
      cases hh : handleIncomingMessage c mm with
      | blocked => rw [hh] at hs; cases hs
      | panicked => rw [hh] at hs; cases hs
      | ok c' =>
        rw [hh] at hs
        have hij : i ≠ j := fun h => hji h.symm
        obtain rfl := StepOut.ok.inj hs
        constructor
        · simp [Hub.set_conns, hij]
        · intro hmem; rw [Hub.set_live] at hmem; exact hnl hmem

/-- Removing the first occurrence of a duplicated head keeps the second
copy. -/
theorem removeFirst_cons_cons (g : String) (ts : List String) :
    removeFirst (g :: g :: ts) g = g :: ts := by
  simp [removeFirst]

/-- After appending two copies of `g` and removing the first occurrence of
`g`, at least one copy of `g` remains. -/
theorem mem_removeFirst_append_two (ts : List String) (g : String) :
    g ∈ removeFirst (ts ++ [g, g]) g := by
  induction ts with
  | nil => simp [removeFirst]
  | cons x t ih =>
    by_cases hx : x = g
    · subst hx
      simp [removeFirst]
    · simpa [removeFirst, hx] using Or.inr ih

/-- A completed trace that never registers key `i` and contains no inbound
message of `i`'s own reader leaves an unregistered `i` unregistered, with
its client value untouched. -/
theorem run_avoid (es : List HubEvent) :
    ∀ (st st' : Hub) (i : Nat), i ∉ st.live →
      (∀ e ∈ es, avoids i e = true) → run st es = some st' →
      st'.conns i = st.conns i ∧ i ∉ st'.live := by
  induction es with
  | nil =>
    intro st st' i hnl _ hr
    obtain rfl : st = st' := Option.some.inj hr
    exact ⟨rfl, hnl⟩
  | cons e es ih =>
    intro st st' i hnl hav hr
    simp only [run] at hr
    cases hs : step st e with
    | blocked => rw [hs] at hr; cases hr
    | panicked => rw [hs] at hr; cases hr
    | ok st₁ =>
      rw [hs] at hr
      have h1 := step_avoid hnl (hav e (List.mem_cons_self e es)) hs
      have h2 := ih st₁ st' i h1.2 (fun e' he' => hav e' (List.mem_cons_of_mem _ he')) hr
      exact ⟨h2.1.trans h1.1, h2.2⟩

/-- The observable kind of a step outcome. -/
inductive OutKind where
  | ok
  | blocked
  | panicked
deriving DecidableEq

/-- Forget the resulting state of a step outcome, keeping only its kind. -/
def StepOut.kind : StepOut → OutKind
  | .ok _ => .ok
  | .blocked => .blocked
  | .panicked => .panicked

/-- A client for user "bob" in no team, with an empty open queue. -/
def bobClient : WSClient :=
  { userID := "bob", teamIDs := [], Send := { buf := [], closed := false } }

/-- A client for user "alice" in no team, with an empty open queue. -/
def aliceClient : WSClient :=
  { userID := "alice", teamIDs := [], Send := { buf := [], closed := false } }

/-- A client for user "carol" subscribed to team "t1". -/
def carolClient : WSClient :=
  { userID := "carol", teamIDs := ["t1"], Send := { buf := [], closed := false } }

/-- A hub whose only live connection is bob's, at key 0. -/
def hubBob : Hub :=
  { conns := fun j => if j = 0 then some bobClient else none, live := [0] }

/-- A hub whose only live connection is carol's, at key 0. -/
def hubCarol : Hub :=
  { conns := fun j => if j = 0 then some carolClient else none, live := [0] }

/-- A hub with alice's connection at key 0 and carol's at key 1. -/
def hubAC : Hub :=
  { conns := fun j =>
      if j = 0 then some aliceClient else if j = 1 then some carolClient else none,
    live := [0, 1] }

/-- An untargeted event (empty UserID, payload not a map): every client
qualifies. -/
def globalMessage : WebSocketMessage :=
  { type := "todo_update", payload := none, userID := "" }

/-- The inbound ping control message. -/
def pingMessage : WebSocketMessage :=
  { type := "ping", payload := none, userID := "" }

/-- An event targeting user "alice" whose payload also carries a team
id. -/
def aliceTeamMessage : WebSocketMessage :=
  { type := "notification", payload := some [("team_id", JVal.str "t1")], userID := "alice" }

/-- A client whose outbound queue is saturated (256 buffered events). -/
def stalledClient : WSClient :=
  { userID := "dave", teamIDs := [],
    Send := { buf := List.replicate sendCapacity globalMessage, closed := false } }

/-- A hub with the stalled client at key 0 and alice's at key 1. -/
def hubStall : Hub :=
  { conns := fun j =>
      if j = 0 then some stalledClient else if j = 1 then some aliceClient else none,
    live := [0, 1] }

/-- The C3 scenario trace: bob subscribes to "t1", a "t1" team event is
dispatched, bob unsubscribes from "t1", a second "t1" team event is
dispatched. -/
def c3Trace : List HubEvent :=
  [HubEvent.clientMsg 0 (subscribeMessage "t1"),
   HubEvent.broadcast (teamUpdateMessage "t1" "updated"),
   HubEvent.clientMsg 0 (unsubscribeMessage "t1"),
   HubEvent.broadcast (teamUpdateMessage "t1" "updated")]

/-- Register one client, then dispatch `n` untargeted events to it. -/
def fillTrace (n : Nat) : List HubEvent :=
  HubEvent.register 0 "alice" [] :: List.replicate n (HubEvent.broadcast globalMessage)

/-- A hub in which bob's connection was already removed (key 0: closed
channel, not live) while carol's is live at key 1. -/
def hubAfterDrop : Hub :=
  { conns := fun j =>
      if j = 0 then some (closeClient bobClient) else if j = 1 then some carolClient else none,
    live := [1] }

/-- The state after dispatching one untargeted event on `hubAfterDrop`:
carol receives it, bob's key is untouched. -/
def hubAfterDrop' : Hub :=
  { conns := fun j =>
      if j = 1 then some (pushClient carolClient globalMessage) else hubAfterDrop.conns j,
    live := [1] }

/-- C1: group correctness of dispatch fails on the code. A team event (as
built by `BroadcastTeamUpdate`: team id in the payload, empty UserID) is
enqueued even on a registered connection whose membership set does not
contain the group: bob belongs to no team, yet dispatching the "t1" team
event enqueues it on bob's queue, because `shouldSendToClient` returns
true for every client as soon as the message's UserID is empty, before
team targeting is ever consulted. -/
theorem C1_team_event_delivered_to_nonmember :
    bobClient.teamIDs = [] ∧
    shouldSendToClient bobClient (teamUpdateMessage "t1" "created") = true ∧
    (broadcastStep (teamUpdateMessage "t1" "created") hubBob).bind (fun st => st.conns 0)
      = some (pushClient bobClient (teamUpdateMessage "t1" "created")) :=
  ⟨rfl, rfl, rfl⟩

/-- C2 counterexample: the claim as stated is false on the code. An event
targeting user "alice" whose payload also carries team id "t1" is enqueued
on carol's connection although carol is not alice: for user-targeted
events the team-membership branch of `shouldSendToClient` still runs, so
"regardless of any team_id present in the payload" fails. -/
theorem C2_counterexample :
    carolClient.userID ≠ aliceTeamMessage.userID ∧
    (broadcastStep aliceTeamMessage hubCarol).bind (fun st => st.conns 0)
      = some (pushClient carolClient aliceTeamMessage) :=
  ⟨by decide, rfl⟩

/-- C2 (amended): for every event that carries a target user and whose
payload holds no "team_id" entry — true of every user notification the
service constructs — dispatch enqueues the event on a live connection with
queue room exactly when that connection's owning identity equals the
target user, and leaves the client untouched otherwise. -/
theorem C2_user_targeting_amended (st : Hub) (m : WebSocketMessage) (i : Nat) (c : WSClient)
    (hG : Good st) (hU : m.userID ≠ "") (hT : payloadTeamId m = none)
    (hi : i ∈ st.live) (hc : st.conns i = some c)
    (hroom : c.Send.buf.length < sendCapacity) :
    ∃ st', broadcastStep m st = some st' ∧
      (st'.conns i = some (pushClient c m) ↔ m.userID = c.userID) ∧
      (m.userID ≠ c.userID → st'.conns i = some c) := by
  obtain ⟨st', h0, h1, _, _, _⟩ := broadcastStep_char m st hG
  have hcon := h1 i hi c hc
  by_cases he : m.userID = c.userID
  · have hq : shouldSendToClient c m = true := (shouldSend_user_only c m hU hT).mpr he
    have hAD : afterDispatch m c = pushClient c m := by simp [afterDispatch, hq, hroom]
    refine ⟨st', h0, ?_, ?_⟩
    · rw [hcon, hAD]; simp [he]
    · intro hne; exact absurd he hne
  · have hq : shouldSendToClient c m = false := by
      cases hqq : shouldSendToClient c m
      · rfl
      · exact absurd ((shouldSend_user_only c m hU hT).mp hqq) he
    have hAD : afterDispatch m c = c := by simp [afterDispatch, hq]
    refine ⟨st', h0, ?_, ?_⟩
    · rw [hcon, hAD]
      constructor
      · intro hpc
        exfalso
        have hcc := Option.some.inj hpc
        have hlen : c.Send.buf.length = (pushClient c m).Send.buf.length :=
          congrArg (fun x => x.Send.buf.length) hcc
        simp [pushClient] at hlen
      · intro he'; exact absurd he' he
    · intro _; rw [hcon, hAD]

/-- C2 witness: the amended theorem applied to the alice/carol hub and a
real user notification for alice. -/
theorem C2_user_targeting_amended_witness :
    ∃ st', broadcastStep (userNotificationMessage "alice" "info" "hi") hubAC = some st' ∧
      (st'.conns 0 = some (pushClient aliceClient (userNotificationMessage "alice" "info" "hi"))
        ↔ (userNotificationMessage "alice" "info" "hi").userID = aliceClient.userID) ∧
      ((userNotificationMessage "alice" "info" "hi").userID ≠ aliceClient.userID →
        st'.conns 0 = some aliceClient) :=
  C2_user_targeting_amended hubAC (userNotificationMessage "alice" "info" "hi") 0 aliceClient
    (by decide) (by decide) (by decide) (by decide) (by decide) (by decide)

/-- C3: subscription mutation fails on the code. The subscribe half holds,
but after bob unsubscribes from "t1" a subsequent "t1" team event is still
delivered to him: team events carry no UserID and `shouldSendToClient`
delivers every UserID-less event to every client. At the end of the
scenario bob's team list is empty again, yet his queue holds both team
events, the second enqueued after the unsubscribe was processed. -/
theorem C3_delivery_after_unsubscribe :
    (run hubBob c3Trace).bind (fun st => st.conns 0)
      = some { userID := "bob", teamIDs := [],
               Send := { buf := [teamUpdateMessage "t1" "updated",
                                 teamUpdateMessage "t1" "updated"], closed := false } } :=
  rfl

/-- C5: processing an unregister request for a connection currently in the
live set removes exactly that connection and closes its queue, leaving all
other keys and all other live connections untouched; processing the same
request again afterwards is a no-op that neither panics nor closes the
queue a second time. -/
theorem C5_unregister_once_then_noop (st : Hub) (i : Nat) (c : WSClient)
    (hG : Good st) (hi : i ∈ st.live) (hc : st.conns i = some c) :
    ∃ st', unregisterStep st i = .ok st' ∧
      i ∉ st'.live ∧ st'.conns i = some (closeClient c) ∧
      (∀ j, j ≠ i → st'.conns j = st.conns j) ∧
      (∀ j, j ≠ i → (j ∈ st'.live ↔ j ∈ st.live)) ∧
      unregisterStep st' i = .ok st' := by
  have hcl : c.Send.closed = false := by
    have := hG.2 i hi
    simpa [openAt, hc] using this
  refine ⟨{ conns := fun j => if j = i then some (closeClient c) else st.conns j,
            live := st.live.filter (fun j => j != i) }, ?_, ?_, ?_, ?_, ?_, ?_⟩
  · simp [unregisterStep, hi, hc, hcl, closeClient]
  · intro h
    have h' : i ∈ List.filter (fun j => j != i) st.live := h
    simpa using (List.mem_filter.mp h').2
  · simp
  · intro j hj
    simp [hj]
  · intro j hj
    constructor
    · intro h
      have h' : j ∈ List.filter (fun k => k != i) st.live := h
      exact (List.mem_filter.mp h').1
    · intro h
      exact List.mem_filter.mpr ⟨h, by simpa using hj⟩
  · have hni : i ∉ List.filter (fun j : Nat => j != i) st.live := by
      intro h
      simpa using (List.mem_filter.mp h).2
    simp [unregisterStep, hni]

/-- C5 witness: unregistering alice's live connection on the two-client
hub. -/
theorem C5_unregister_once_then_noop_witness :
    ∃ st', unregisterStep hubAC 0 = .ok st' ∧
      0 ∉ st'.live ∧ st'.conns 0 = some (closeClient aliceClient) ∧
      (∀ j, j ≠ 0 → st'.conns j = hubAC.conns j) ∧
      (∀ j, j ≠ 0 → (j ∈ st'.live ↔ j ∈ hubAC.live)) ∧
      unregisterStep st' 0 = .ok st' :=
  C5_unregister_once_then_noop hubAC 0 aliceClient (by decide) (by decide) (by decide)

/-- C4: during one dispatch, delivery is a non-blocking push; a qualifying
connection with a saturated queue is closed and removed from the live set,
while any other qualifying connection with room receives the event in the
same dispatch, stays live, and also receives the event of a later
dispatch. The dispatch itself completes (it neither blocks nor panics). -/
theorem C4_backpressure_isolation (st : Hub) (m m₂ : WebSocketMessage)
    (i j : Nat) (ci cj : WSClient)
    (hG : Good st) (hi : i ∈ st.live) (hci : st.conns i = some ci)
    (hj : j ∈ st.live) (hcj : st.conns j = some cj)
    (hqi : shouldSendToClient ci m = true) (hfull : ¬ ci.Send.buf.length < sendCapacity)
    (hqj : shouldSendToClient cj m = true) (hroomj : cj.Send.buf.length < sendCapacity)
    (hqj₂ : shouldSendToClient cj m₂ = true) (hroomj₂ : cj.Send.buf.length + 1 < sendCapacity) :
    ∃ st', broadcastStep m st = some st' ∧
      i ∉ st'.live ∧ st'.conns i = some (closeClient ci) ∧
      j ∈ st'.live ∧ st'.conns j = some (pushClient cj m) ∧
      ∃ st₂, broadcastStep m₂ st' = some st₂ ∧
        st₂.conns j = some (pushClient (pushClient cj m) m₂) := by
  obtain ⟨st', h0, h1, _, h3, _⟩ := broadcastStep_char m st hG
  have hAi : st'.conns i = some (closeClient ci) := by
    have := h1 i hi ci hci
    rw [this]
    simp [afterDispatch, hqi, hfull]
  have hAj : st'.conns j = some (pushClient cj m) := by
    have := h1 j hj cj hcj
    rw [this]
    simp [afterDispatch, hqj, hroomj]
  have hnli : i ∉ st'.live := by
    rw [h3 i]
    rintro ⟨_, hlb⟩
    simp [liveAfterB, hci, staysLive, hqi, hfull] at hlb
  have hlj : j ∈ st'.live :=
    (h3 j).mpr ⟨hj, by simp [liveAfterB, hcj, staysLive, hqj, hroomj]⟩
  have hG' : Good st' := good_broadcast hG h0
  obtain ⟨st₂, g0, g1, _, _, _⟩ := broadcastStep_char m₂ st' hG'
  have hq2 : shouldSendToClient (pushClient cj m) m₂ = true := by
    rw [shouldSend_push]; exact hqj₂
  have hroom2 : (pushClient cj m).Send.buf.length < sendCapacity := by
    simpa [pushClient] using hroomj₂
  have hBj : st₂.conns j = some (pushClient (pushClient cj m) m₂) := by
    have := g1 j hlj (pushClient cj m) hAj
    rw [this]
    simp [afterDispatch, hq2, hroom2]
  exact ⟨st', h0, hnli, hAi, hlj, hAj, st₂, g0, hBj⟩

set_option maxRecDepth 4000 in
/-- C4 witness: the stalled client dave (saturated queue) is dropped while
alice receives both untargeted events. -/
theorem C4_backpressure_isolation_witness :
    ∃ st', broadcastStep globalMessage hubStall = some st' ∧
      0 ∉ st'.live ∧ st'.conns 0 = some (closeClient stalledClient) ∧
      1 ∈ st'.live ∧ st'.conns 1 = some (pushClient aliceClient globalMessage) ∧
      ∃ st₂, broadcastStep globalMessage st' = some st₂ ∧
        st₂.conns 1 = some (pushClient (pushClient aliceClient globalMessage) globalMessage) :=
  C4_backpressure_isolation hubStall globalMessage globalMessage 0 1 stalledClient aliceClient
    (by decide) (by decide) (by decide) (by decide) (by decide)
    (by decide) (by decide) (by decide) (by decide) (by decide) (by decide)

/-- C6: once a connection's key is out of the live set (whether removed by
an unregister request or by the queue-overflow path), any completed trace
of events that never re-registers that key and contains no inbound message
of its own reader leaves its client value — in particular its outbound
queue — untouched and its key outside the live set; hence no broadcast
processed after the removal enqueues anything on that connection, and
since its transport is written only from that queue, nothing new is ever
written to it. -/
theorem C6_no_delivery_after_removal (es : List HubEvent) (st st' : Hub) (i : Nat)
    (hnl : i ∉ st.live) (hav : ∀ e ∈ es, avoids i e = true)
    (hr : run st es = some st') :
    st'.conns i = st.conns i ∧ i ∉ st'.live :=
  run_avoid es st st' i hnl hav hr

/-- C6 witness: after bob's removal, a dispatched untargeted event reaches
carol but leaves bob's connection untouched. -/
theorem C6_no_delivery_after_removal_witness :
    hubAfterDrop'.conns 0 = hubAfterDrop.conns 0 ∧ 0 ∉ hubAfterDrop'.live :=
  C6_no_delivery_after_removal [HubEvent.broadcast globalMessage]
    hubAfterDrop hubAfterDrop' 0 (by decide) (by decide) rfl

/-- C7: per-connection ordering. Over any consecutive sequence of
broadcast submissions that does not overflow the connection's queue, the
queue of a live connection ends holding exactly the qualifying events, in
submission order, appended after its previous content — each dispatch is
processed to completion before the next begins. -/
theorem C7_per_connection_order (ms : List WebSocketMessage) :
    ∀ (st : Hub) (i : Nat) (c : WSClient), Good st → i ∈ st.live → st.conns i = some c →
      c.Send.buf.length + (List.filter (fun m => shouldSendToClient c m) ms).length
        ≤ sendCapacity →
      ∃ st', run st (ms.map HubEvent.broadcast) = some st' ∧
        st'.conns i = some { c with Send :=
          { c.Send with
            buf := c.Send.buf ++ List.filter (fun m => shouldSendToClient c m) ms } } ∧
        i ∈ st'.live := by
  induction ms with
  | nil =>
    intro st i c _ hi hc _
    refine ⟨st, rfl, ?_, hi⟩
    rw [hc]
    simp
  | cons m ms ih =>
    intro st i c hG hi hc hcap
    obtain ⟨st₁, h0, h1, _, h3, _⟩ := broadcastStep_char m st hG
    have hG₁ : Good st₁ := good_broadcast hG h0
    have hstep : step st (.broadcast m) = .ok st₁ := by simp [step, h0]
    cases hq : shouldSendToClient c m with
    | true =>
      have hfil : List.filter (fun m' => shouldSendToClient c m') (m :: ms)
          = m :: List.filter (fun m' => shouldSendToClient c m') ms := by
        simp [List.filter_cons, hq]
      rw [hfil] at hcap
      have hroom : c.Send.buf.length < sendCapacity := by
        simp at hcap
        omega
      have hc₁ : st₁.conns i = some (pushClient c m) := by
        have := h1 i hi c hc
        rw [this]
        simp [afterDispatch, hq, hroom]
      have hi₁ : i ∈ st₁.live :=
        (h3 i).mpr ⟨hi, by simp [liveAfterB, hc, staysLive, hq, hroom]⟩
      have hcap₁ : (pushClient c m).Send.buf.length +
          (List.filter (fun m' => shouldSendToClient (pushClient c m) m') ms).length
            ≤ sendCapacity := by
        simp only [shouldSend_push]
        simp [pushClient] at hcap ⊢
        omega
      obtain ⟨st', hr, hcon, hlive⟩ := ih st₁ i (pushClient c m) hG₁ hi₁ hc₁ hcap₁
      refine ⟨st', ?_, ?_, hlive⟩
      · simpa [run, hstep] using hr
      · rw [hcon, hfil]
        simp only [shouldSend_push]
        simp [pushClient, List.append_assoc]
    | false =>
      have hfil : List.filter (fun m' => shouldSendToClient c m') (m :: ms)
          = List.filter (fun m' => shouldSendToClient c m') ms := by
        simp [List.filter_cons, hq]
      rw [hfil] at hcap
      have hc₁ : st₁.conns i = some c := by
        have := h1 i hi c hc
        rw [this]
        simp [afterDispatch, hq]
      have hi₁ : i ∈ st₁.live :=
        (h3 i).mpr ⟨hi, by simp [liveAfterB, hc, staysLive, hq]⟩
      obtain ⟨st', hr, hcon, hlive⟩ := ih st₁ i c hG₁ hi₁ hc₁ hcap
      refine ⟨st', ?_, ?_, hlive⟩
      · simpa [run, hstep] using hr
      · rw [hcon, hfil]

/-- C7 witness: two user notifications dispatched in order on the
alice/carol hub; alice's queue ends holding exactly the one qualifying
event. -/
theorem C7_per_connection_order_witness :
    ∃ st', run hubAC
        ([userNotificationMessage "alice" "a" "x",
          userNotificationMessage "bob" "a" "x"].map HubEvent.broadcast) = some st' ∧
      st'.conns 0 = some { aliceClient with Send :=
        { aliceClient.Send with
          buf := aliceClient.Send.buf ++ List.filter
            (fun m => shouldSendToClient aliceClient m)
            [userNotificationMessage "alice" "a" "x",
             userNotificationMessage "bob" "a" "x"] } } ∧
      0 ∈ st'.live :=
  C7_per_connection_order
    [userNotificationMessage "alice" "a" "x", userNotificationMessage "bob" "a" "x"]
    hubAC 0 aliceClient (by decide) (by decide) (by decide) (by decide)

/-- C8: the subscription collection is a list, not a set: a subscribe
appends its group unconditionally (duplicating an existing entry), an
unsubscribe removes only the first matching entry; hence after two
subscribes to a group and one unsubscribe the client still holds the group
and still qualifies for events carrying that group's id. -/
theorem C8_subscriptions_are_list_ops (c : WSClient) (G uOther : String)
    (hne : uOther ≠ "") (hneu : uOther ≠ c.userID) :
    handleIncomingMessage c (subscribeMessage G) = .ok { c with teamIDs := c.teamIDs ++ [G] } ∧
    handleIncomingMessage c (unsubscribeMessage G)
      = .ok { c with teamIDs := removeFirst c.teamIDs G } ∧
    removeFirst (G :: G :: c.teamIDs) G = G :: c.teamIDs ∧
    ∃ c₁ c₂ c₃,
      handleIncomingMessage c (subscribeMessage G) = .ok c₁ ∧
      handleIncomingMessage c₁ (subscribeMessage G) = .ok c₂ ∧
      handleIncomingMessage c₂ (unsubscribeMessage G) = .ok c₃ ∧
      c₂.teamIDs = c.teamIDs ++ [G] ++ [G] ∧
      G ∈ c₃.teamIDs ∧
      shouldSendToClient c₃
        { type := "team_update", payload := some [("team_id", JVal.str G)],
          userID := uOther } = true := by
  refine ⟨rfl, rfl, removeFirst_cons_cons G c.teamIDs, ?_⟩
  refine ⟨{ c with teamIDs := c.teamIDs ++ [G] },
          { c with teamIDs := c.teamIDs ++ [G] ++ [G] },
          { c with teamIDs := removeFirst (c.teamIDs ++ [G] ++ [G]) G },
          rfl, rfl, rfl, rfl, ?_, ?_⟩
  · have happ : c.teamIDs ++ [G] ++ [G] = c.teamIDs ++ [G, G] := by
      simp
    rw [happ]
    exact mem_removeFirst_append_two c.teamIDs G
  · have hmem : G ∈ removeFirst (c.teamIDs ++ [G] ++ [G]) G := by
      have happ : c.teamIDs ++ [G] ++ [G] = c.teamIDs ++ [G, G] := by
        simp
      rw [happ]
      exact mem_removeFirst_append_two c.teamIDs G
    unfold shouldSendToClient
    rw [if_neg hne, if_neg hneu]
    simp only [Payload.lookup, if_pos rfl]
    exact List.any_eq_true.mpr ⟨G, hmem, by simp⟩

/-- C8 witness: bob subscribes to "t1" twice and unsubscribes once; he
still holds "t1" and still qualifies for a "t1"-tagged event sent by
another user. -/
theorem C8_subscriptions_are_list_ops_witness :
    handleIncomingMessage bobClient (subscribeMessage "t1")
      = .ok { bobClient with teamIDs := bobClient.teamIDs ++ ["t1"] } ∧
    handleIncomingMessage bobClient (unsubscribeMessage "t1")
      = .ok { bobClient with teamIDs := removeFirst bobClient.teamIDs "t1" } ∧
    removeFirst ("t1" :: "t1" :: bobClient.teamIDs) "t1" = "t1" :: bobClient.teamIDs ∧
    ∃ c₁ c₂ c₃,
      handleIncomingMessage bobClient (subscribeMessage "t1") = .ok c₁ ∧
      handleIncomingMessage c₁ (subscribeMessage "t1") = .ok c₂ ∧
      handleIncomingMessage c₂ (unsubscribeMessage "t1") = .ok c₃ ∧
      c₂.teamIDs = bobClient.teamIDs ++ ["t1"] ++ ["t1"] ∧
      "t1" ∈ c₃.teamIDs ∧
      shouldSendToClient c₃
        { type := "team_update", payload := some [("team_id", JVal.str "t1")],
          userID := "zed" } = true :=
  C8_subscriptions_are_list_ops bobClient "t1" "zed" (by decide) (by decide)

/-- C9: from a well-formed state, under at-most-once registration, every
Router step (register, unregister, broadcast dispatch) completes without
blocking or panicking, preserves well-formedness, and closes a client's
Send channel only in the very step that also removes that client from the
live map — so each channel is closed at most once, by whichever of the
unregister path or the overflow path fires first. -/
theorem C9_close_only_with_removal (st : Hub) (e : HubEvent)
    (hG : Good st)
    (hfresh : ∀ i u ts, e = .register i u ts → st.conns i = none)
    (hrouter : ∀ i m, e ≠ .clientMsg i m) :
    ∃ st', step st e = .ok st' ∧ Good st' ∧
      ∀ i c c', st.conns i = some c → st'.conns i = some c' →
        c.Send.closed = false → c'.Send.closed = true →
        i ∈ st.live ∧ i ∉ st'.live := by
  cases e with
  | clientMsg j mm => exact absurd rfl (hrouter j mm)
  | register j u ts =>
    have hf : st.conns j = none := hfresh j u ts rfl
    refine ⟨registerStep st j u ts, rfl, good_register hG hf, ?_⟩
    intro i c c' hc hc' hop hcl
    exfalso
    by_cases hij : i = j
    · subst hij
      rw [hf] at hc
      cases hc
    · have hsame : (registerStep st j u ts).conns i = st.conns i := by
        simp [registerStep, hij]
      rw [hsame, hc] at hc'
      obtain rfl : c = c' := Option.some.inj hc'
      rw [hop] at hcl
      cases hcl
  | unregister j =>
    by_cases hjl : j ∈ st.live
    · have hoj := hG.2 j hjl
      cases hcj : st.conns j with
      | none => simp [openAt, hcj] at hoj
      | some cj =>
        have hclj : cj.Send.closed = false := by simpa [openAt, hcj] using hoj
        have hstep : step st (.unregister j) =
            .ok { conns := fun k => if k = j then some (closeClient cj) else st.conns k,
                  live := st.live.filter (fun k => k != j) } := by
          simp [step, unregisterStep, hjl, hcj, hclj, closeClient]
        refine ⟨_, hstep, ?_, ?_⟩
        · have hu : unregisterStep st j =
              .ok { conns := fun k => if k = j then some (closeClient cj) else st.conns k,
                    live := st.live.filter (fun k => k != j) } := hstep
          exact good_unregister hG hu
        · intro i c c' hc hc' hop hcl
          by_cases hij : i = j
          · subst hij
            refine ⟨hjl, ?_⟩
            intro hmem
            have h' : i ∈ List.filter (fun k => k != i) st.live := hmem
            simpa using (List.mem_filter.mp h').2
          · exfalso
            have hsame : (if i = j then some (closeClient cj) else st.conns i) = st.conns i :=
              if_neg hij
            simp only [hij, if_false] at hc'
            rw [hc] at hc'
            obtain rfl : c = c' := Option.some.inj hc'
            rw [hop] at hcl
            cases hcl
    · refine ⟨st, by simp [step, unregisterStep, hjl], hG, ?_⟩
      intro i c c' hc hc' hop hcl
      exfalso
      rw [hc] at hc'
      obtain rfl : c = c' := Option.some.inj hc'
      rw [hop] at hcl
      cases hcl
  | broadcast m =>
    obtain ⟨st', h0, h1, h2, h3, _⟩ := broadcastStep_char m st hG
    refine ⟨st', by simp [step, h0], good_broadcast hG h0, ?_⟩
    intro i c c' hc hc' hop hcl
    by_cases hil : i ∈ st.live
    · have hconn := h1 i hil c hc
      rw [hconn] at hc'
      have hAD : afterDispatch m c = c' := Option.some.inj hc'
      cases hq : shouldSendToClient c m with
      | false =>
        exfalso
        have hcc : c' = c := by rw [← hAD]; simp [afterDispatch, hq]
        rw [hcc, hop] at hcl
        cases hcl
      | true =>
        by_cases hroom : c.Send.buf.length < sendCapacity
        · exfalso
          have hcc : c' = pushClient c m := by rw [← hAD]; simp [afterDispatch, hq, hroom]
          rw [hcc] at hcl
          simp [pushClient, hop] at hcl
        · refine ⟨hil, ?_⟩
          rw [h3 i]
          rintro ⟨_, hlb⟩
          simp [liveAfterB, hc, staysLive, hq, hroom] at hlb
    · exfalso
      have hsame := h2 i hil
      rw [hsame, hc] at hc'
      obtain rfl : c = c' := Option.some.inj hc'
      rw [hop] at hcl
      cases hcl

set_option maxRecDepth 4000 in
/-- C9 witness: on the hub with dave's queue saturated, one broadcast
dispatch completes, preserves well-formedness, and any channel it closed
(dave's) belonged to a client removed from the live map in that very
step. -/
theorem C9_close_only_with_removal_witness :
    ∃ st', step hubStall (.broadcast globalMessage) = .ok st' ∧ Good st' ∧
      ∀ i c c', hubStall.conns i = some c → st'.conns i = some c' →
        c.Send.closed = false → c'.Send.closed = true →
        i ∈ hubStall.live ∧ i ∉ st'.live :=
  C9_close_only_with_removal hubStall (.broadcast globalMessage) (by decide)
    (fun i u ts h => HubEvent.noConfusion h)
    (fun i m h => HubEvent.noConfusion h)

set_option maxRecDepth 8000 in
/-- C10: the ping branch of `handleIncomingMessage` replies with an
unconditional blocking send onto the client's own queue, with no
non-blocking or overflow handling: on a normal queue the pong is appended
after the buffered events; in the reachable state in which the overflow
path has filled and then closed the queue (257 untargeted broadcasts after
registration), handling a ping panics (send on a closed channel); in the
reachable state with a full but still-open queue (256 broadcasts), the
reader blocks. -/
theorem C10_ping_unconditional_send :
    ((run hub0 (fillTrace 1 ++ [HubEvent.clientMsg 0 pingMessage])).bind fun st => st.conns 0)
      = some { userID := "alice", teamIDs := [],
               Send := { buf := [globalMessage, pongMessage], closed := false } } ∧
    (run hub0 (fillTrace 256)).map (fun st => (step st (.clientMsg 0 pingMessage)).kind)
      = some OutKind.blocked ∧
    (run hub0 (fillTrace 257)).map (fun st => (step st (.clientMsg 0 pingMessage)).kind)
      = some OutKind.panicked :=
  ⟨rfl, rfl, rfl⟩

end TodoApi
